import Mathlib

/-!
Verification of the 24Krafts backend (NestJS + Supabase): shallow embedding of
the cursor-pagination utilities, the realtime chat subsystem (gateway + service)
and the OTP authentication service, with theorems about the properties the
specification states for them.

Conventions of the embedding:
* Timestamps are natural numbers (milliseconds); the database compares them
  with the same strict orders the Supabase query builder uses (`lt`, `gt`).
* Database tables are Lean lists of rows; `order by ... desc` over a list that
  is kept in ascending order is `List.reverse`, `limit n` is `List.take n`.
* A thrown exception is the `Except.error` branch of an `Except` result.
* Strings that only travel through byte-oriented APIs (the base64 cursor
  token) are modelled as lists of bytes (`List Nat`, each `< 256`).
-/

namespace Krafts

/-! ### Base64 and cursor tokens (src/utils/cursor.util.ts)

`Buffer.from(s).toString('base64')` is the standard RFC 4648 base64 encoding
of the UTF-8 bytes of `s`; `Buffer.from(tok, 'base64').toString('utf-8')` is
its inverse on well-formed tokens.  We model both at the byte level.  The byte
`124` is the character `|` used as the cursor separator. -/

/-- The base64 alphabet `A-Z a-z 0-9 + /` as byte values. -/
def b64alphabet : List Nat :=
  [65, 66, 67, 68, 69, 70, 71, 72, 73, 74, 75, 76, 77, 78, 79, 80, 81, 82,
   83, 84, 85, 86, 87, 88, 89, 90,
   97, 98, 99, 100, 101, 102, 103, 104, 105, 106, 107, 108, 109, 110, 111,
   112, 113, 114, 115, 116, 117, 118, 119, 120, 121, 122,
   48, 49, 50, 51, 52, 53, 54, 55, 56, 57, 43, 47]

/-- Byte of the base64 character for a sextet value. -/
def sextet (n : Nat) : Nat := b64alphabet.getD n 0

/-- Position of a byte in a list, if present. -/
def indexIn (c : Nat) : List Nat → Option Nat
  | [] => none
  | x :: xs => if x = c then some 0 else (indexIn c xs).map (· + 1)

/-- Sextet value of a base64 character byte. -/
def sextetInv (c : Nat) : Option Nat := indexIn c b64alphabet

/-- RFC 4648 base64 encoding of a byte list (with `=` padding, byte 61). -/
def b64encode : List Nat → List Nat
  | [] => []
  | [a] => [sextet (a / 4), sextet (a % 4 * 16), 61, 61]
  | [a, b] => [sextet (a / 4), sextet (a % 4 * 16 + b / 16), sextet (b % 16 * 4), 61]
  | a :: b :: c :: rest =>
    sextet (a / 4) :: sextet (a % 4 * 16 + b / 16) :: sextet (b % 16 * 4 + c / 64)
      :: sextet (c % 64) :: b64encode rest

/-- Base64 decoding; inverse of `b64encode` on its image. -/
def b64decode : List Nat → Option (List Nat)
  | [] => some []
  | c0 :: c1 :: c2 :: c3 :: rest =>
    if c2 = 61 ∧ c3 = 61 ∧ rest = [] then
      match sextetInv c0, sextetInv c1 with
      | some s0, some s1 => some [s0 * 4 + s1 / 16]
      | _, _ => none
    else if c3 = 61 ∧ rest = [] then
      match sextetInv c0, sextetInv c1, sextetInv c2 with
      | some s0, some s1, some s2 => some [s0 * 4 + s1 / 16, s1 % 16 * 16 + s2 / 4]
      | _, _, _ => none
    else
      match sextetInv c0, sextetInv c1, sextetInv c2, sextetInv c3, b64decode rest with
      | some s0, some s1, some s2, some s3, some tail =>
        some ((s0 * 4 + s1 / 16) :: (s1 % 16 * 16 + s2 / 4) :: (s2 % 4 * 64 + s3) :: tail)
      | _, _, _, _, _ => none
  | _ => none

/-- Decoded cursor: `{ timestamp, id }`, both as byte strings. -/
structure CursorData where
  timestamp : List Nat
  id : List Nat
deriving DecidableEq

/-- Function `encodeCursor`: base64 of `timestamp|id` (timestamp already a string). -/
def encodeCursor (timestamp id : List Nat) : List Nat :=
  b64encode (timestamp ++ 124 :: id)

/-- JavaScript `decoded.split('|')` at the byte level. -/
def splitOnByte (sep : Nat) : List Nat → List (List Nat)
  | [] => [[]]
  | x :: xs =>
    match splitOnByte sep xs with
    | [] => [[]]
    | p :: ps => if x = sep then [] :: p :: ps else (x :: p) :: ps

/-- Function `decodeCursor`: base64-decode, split on `|`, take the first two parts,
return null when either is empty (JS falsiness; a missing part is `[]`). -/
def decodeCursor (cursor : List Nat) : Option CursorData :=
  match b64decode cursor with
  | none => none
  | some decoded =>
    let parts := splitOnByte 124 decoded
    let ts := parts.getD 0 []
    let ident := parts.getD 1 []
    if ts = [] ∨ ident = [] then none else some ⟨ts, ident⟩

/-! ### Chat data model (Supabase tables used by the chat subsystem) -/

/-- A row of the `messages` table.  `created_at` defaults to the insert time,
`read_by` to the empty list. -/
structure Message where
  id : Nat
  conversation_id : String
  sender_profile_id : String
  content : String
  metadata : Option String
  client_msg_id : Option String
  delivered : Bool
  created_at : Nat
  read_by : List String
deriving DecidableEq

/-- A row of the `conversation_members` table. -/
structure MemberRow where
  conversation_id : String
  profile_id : String
  joined_at : Nat
deriving DecidableEq

/-- A row of the `presence` table. -/
structure PresenceRow where
  conversation_id : String
  profile_id : String
  is_typing : Bool
  last_seen_at : Nat
deriving DecidableEq

/-- The chat-relevant database state.  Lists are kept in insertion order,
which for `messages` (serial ids, monotone `created_at`) is ascending order;
`nextMessageId` models the serial primary key. -/
structure ChatDb where
  messages : List Message
  members : List MemberRow
  presence : List PresenceRow
  nextMessageId : Nat
deriving DecidableEq

/-- The membership lookup both the gateway and the service perform:
`conversation_members` filtered by conversation and profile, `maybeSingle`. -/
def isMember (db : ChatDb) (conversationId profileId : String) : Bool :=
  db.members.any (fun r => r.conversation_id == conversationId && r.profile_id == profileId)

/-- Whether a stored message already carries this `client_msg_id`. -/
def hasClientMsgId (db : ChatDb) (c : String) : Bool :=
  db.messages.any (fun m => m.client_msg_id == some c)

/-- Modelled from the spec: the hosted database enforces a unique constraint
on `messages.client_msg_id` (the gateway comment `idempotent via unique
constraint on client_msg_id`; the schema itself is not part of src/).  An
insert whose non-null `client_msg_id` is already taken returns an error. -/
def clientMsgIdTaken (db : ChatDb) : Option String → Bool
  | some c => hasClientMsgId db c
  | none => false

/-- Errors thrown by `ChatService` (`ForbiddenException`, generic `Error`). -/
inductive ChatError where
  | forbidden
  | dbError
deriving DecidableEq

/-- The message row built by the insert in `ChatService.sendMessage`. -/
def sentMessage (db : ChatDb) (conversationId senderId content : String)
    (metadata : Option String) (clientMsgId : Option String) (now : Nat) : Message :=
  ⟨db.nextMessageId, conversationId, senderId, content, metadata, clientMsgId, true, now, []⟩

/-- Appending a freshly inserted message row. -/
def dbAfterInsert (db : ChatDb) (m : Message) : ChatDb :=
  {db with messages := db.messages ++ [m], nextMessageId := db.nextMessageId + 1}

/-- Method `ChatService.sendMessage`: verify membership (`ForbiddenException` when
absent), then insert the message; the insert fails on a duplicate
`client_msg_id` (unique constraint), which the service turns into a thrown
`Error`. -/
def ChatService.sendMessage (db : ChatDb) (conversationId senderId content : String)
    (metadata : Option String) (clientMsgId : Option String) (now : Nat) :
    Except ChatError (ChatDb × Message) :=
  if isMember db conversationId senderId then
    if clientMsgIdTaken db clientMsgId then .error .dbError
    else
      let msg := sentMessage db conversationId senderId content metadata clientMsgId now
      .ok (dbAfterInsert db msg, msg)
  else .error .forbidden

/-- The `onConflict: 'conversation_id,profile_id'` key of the presence table. -/
def keyMatches (c p : String) (r : PresenceRow) : Bool :=
  r.conversation_id == c && r.profile_id == p

/-- Supabase `upsert` with `onConflict: 'conversation_id,profile_id'`:
replace the row with the same key, insert otherwise. -/
def upsertPresence (rows : List PresenceRow) (row : PresenceRow) : List PresenceRow :=
  if rows.any (keyMatches row.conversation_id row.profile_id) then
    rows.map (fun r => if keyMatches row.conversation_id row.profile_id r then row else r)
  else rows ++ [row]

/-- Method `ChatService.updateTyping`: upsert `{is_typing, last_seen_at: now}`. -/
def ChatService.updateTyping (db : ChatDb) (conversationId profileId : String)
    (isTyping : Bool) (now : Nat) : ChatDb :=
  {db with presence := upsertPresence db.presence ⟨conversationId, profileId, isTyping, now⟩}

/-- Method `ChatService.updatePresence`: upsert `{is_typing: false, last_seen_at: now}`. -/
def ChatService.updatePresence (db : ChatDb) (conversationId profileId : String)
    (now : Nat) : ChatDb :=
  {db with presence := upsertPresence db.presence ⟨conversationId, profileId, false, now⟩}

/-- A call to one of the two presence-writing service methods. -/
inductive PresenceOp where
  | typing (conversationId profileId : String) (isTyping : Bool) (now : Nat)
  | presence (conversationId profileId : String) (now : Nat)
deriving DecidableEq

/-- The conflict key of a presence call. -/
def PresenceOp.key : PresenceOp → String × String
  | .typing cid pid _ _ => (cid, pid)
  | .presence cid pid _ => (cid, pid)

/-- The row a presence call writes. -/
def PresenceOp.row : PresenceOp → PresenceRow
  | .typing cid pid b now => ⟨cid, pid, b, now⟩
  | .presence cid pid now => ⟨cid, pid, false, now⟩

/-- Run one presence call against the database. -/
def applyPresenceOp (db : ChatDb) : PresenceOp → ChatDb
  | .typing cid pid b now => ChatService.updateTyping db cid pid b now
  | .presence cid pid now => ChatService.updatePresence db cid pid now

/-- The last call of a sequence that targets the given key, if any. -/
def lastOpFor (cid pid : String) : List PresenceOp → Option PresenceOp
  | [] => none
  | op :: rest =>
    match lastOpFor cid pid rest with
    | some o => some o
    | none => if op.key = (cid, pid) then some op else none

/-! ### Gateway (src ChatGateway): socket state and WebSocket events -/

/-- The authenticated user stashed on the socket by `handleConnection`. -/
structure AuthUser where
  userId : String
  profileId : String
deriving DecidableEq

/-- A connected socket: its id and its (possibly missing) authenticated user. -/
structure Socket where
  sid : Nat
  user : Option AuthUser
deriving DecidableEq

/-- Gateway state: the database plus socket.io room membership. -/
structure GwState where
  db : ChatDb
  rooms : List (Nat × String)
deriving DecidableEq

/-- Events emitted by the gateway (to the caller or to a room). -/
inductive GwEvent where
  | errorEvt (code : String)
  | message (messageId : Nat) (conversationId senderId content : String) (createdAt : Nat)
  | messageAck (clientMsgId : String) (messageId : Nat) (createdAt : Nat)
  | receiptUpdate (messageId : Nat)
  | userTyping (conversationId userId : String) (isTyping : Bool)
deriving DecidableEq

/-- socket.io room name for a conversation. -/
def roomName (conversationId : String) : String := "room:" ++ conversationId

/-- Handler `ChatGateway.onJoinConversation`: bad_request on missing fields, then join
the room exactly when a membership row exists, `forbidden` otherwise. -/
def ChatGateway.onJoinConversation (st : GwState) (sock : Socket)
    (conversationId : String) : GwState × List GwEvent :=
  match sock.user with
  | none => (st, [.errorEvt "bad_request"])
  | some u =>
    if conversationId = "" then (st, [.errorEvt "bad_request"])
    else if isMember st.db conversationId u.profileId then
      ({st with rooms := (sock.sid, roomName conversationId) :: st.rooms}, [])
    else (st, [.errorEvt "forbidden"])

/-- Handler `ChatGateway.onSendMessage`: bad_request on missing fields; otherwise call
`ChatService.sendMessage` (an exception it throws is uncaught and propagates:
the `Except.error` branch, emitting nothing), then broadcast `message` to the
room and `message_ack` to the sender. -/
def ChatGateway.onSendMessage (st : GwState) (sock : Socket)
    (conversationId clientMsgId content : String) (metadata : Option String)
    (now : Nat) : Except ChatError (GwState × List GwEvent) :=
  match sock.user with
  | none => .ok (st, [.errorEvt "bad_request"])
  | some u =>
    if conversationId = "" ∨ clientMsgId = "" ∨ content = "" then
      .ok (st, [.errorEvt "bad_request"])
    else
      match ChatService.sendMessage st.db conversationId u.profileId content metadata
          (some clientMsgId) now with
      | .error e => .error e
      | .ok (db2, msg) =>
        .ok ({st with db := db2},
          [.message msg.id conversationId msg.sender_profile_id msg.content msg.created_at,
           .messageAck clientMsgId msg.id msg.created_at])

/-! ### Read receipts: the mark_read fallback branch -/

/-- Rows fetched by the fallback: same conversation, id up to the payload id. -/
def toUpdatePred (cid : String) (lastId : Nat) (m : Message) : Bool :=
  m.conversation_id == cid && m.id ≤ lastId

/-- One loop iteration's database write:
`update({read_by: [...readBy, profileId]}).eq('id', m.id)`, with `readBy`
taken from the fetched snapshot row `m`. -/
def applyReadUpdate (pid : String) (db : ChatDb) (m : Message) : ChatDb :=
  {db with messages := db.messages.map (fun x =>
    if x.id = m.id then {x with read_by := m.read_by ++ [pid]} else x)}

/-- The fallback loop over the fetched snapshot: update and emit
`receipt_update` only when the reader is absent from `read_by`. -/
def markLoop (pid : String) : ChatDb × List GwEvent → List Message → ChatDb × List GwEvent
  | acc, [] => acc
  | (db, evs), m :: rest =>
    if m.read_by.contains pid then markLoop pid (db, evs) rest
    else markLoop pid (applyReadUpdate pid db m, evs ++ [.receiptUpdate m.id]) rest

/-- Handler `ChatGateway.onMarkRead`, fallback branch (taken when the
`mark_messages_read_up_to` RPC returned an error). -/
def ChatGateway.onMarkReadFallback (db : ChatDb) (cid pid : String) (lastId : Nat) :
    ChatDb × List GwEvent :=
  markLoop pid (db, []) (db.messages.filter (toUpdatePred cid lastId))

/-- Denotation of the fallback loop on a single row (used to state what the
loop computes): the snapshot row with the same id, if it needed the update. -/
def readView (pid : String) (todo : List Message) (x : Message) : Message :=
  match todo.find? (fun m => m.id == x.id && !(m.read_by.contains pid)) with
  | some m => {x with read_by := m.read_by ++ [pid]}
  | none => x

/-! ### Cursor pagination over the tables

The services exchange cursors through `encodeCursor`/`decodeCursor`; by the
round-trip theorems below the decoded content is exactly what was encoded, so
the pagination model carries the decoded sort key directly. -/

/-- A decoded pagination sort key: timestamp plus id rendered as a string. -/
structure CursorKey where
  timestamp : Nat
  id : String
deriving DecidableEq

/-- The `limit` bookkeeping of `createPaginatedResponse` and of the inlined copies
in the services: the returned items are `data.slice(0, limit)` when more than
`limit` rows came back. -/
def pageItems {α : Type} (l : List α) (limit : Nat) : List α :=
  if limit < l.length then l.take limit else l

/-- The `nextCursor` bookkeeping: non-null exactly on `hasMore`, built from
`data[limit - 1]`, the last row of the returned slice in fetch order. -/
def pageCursor {α : Type} (l : List α) (limit : Nat) (f : α → CursorKey) : Option CursorKey :=
  if limit < l.length then (l[limit - 1]?).map f else none

/-- A paginated response: items plus optional next cursor. -/
structure GenPage (α : Type) where
  data : List α
  nextCursor : Option CursorKey
deriving DecidableEq

/-- Helper `createPaginatedResponse` from src/utils/cursor.util.ts. -/
def createPaginatedResponse {α : Type} (data : List α) (limit : Nat)
    (getCursor : α → CursorKey) : GenPage α :=
  ⟨pageItems data limit, pageCursor data limit getCursor⟩

/-- The cursor filter of `getMessages`: `lt('created_at', decoded.timestamp)`.
Only the timestamp of the decoded cursor is used; `decoded.id` is ignored. -/
def cursorPredMsg (cursor : Option CursorKey) (m : Message) : Bool :=
  match cursor with
  | none => true
  | some c => decide (m.created_at < c.timestamp)

/-- Rows fetched by `getMessages`: the conversation's messages, cursor filter
applied, ordered by `created_at` descending (reverse of the ascending store),
`limit(limit + 1)`. -/
def fetchedMessages (db : ChatDb) (cid : String) (cursor : Option CursorKey)
    (limit : Nat) : List Message :=
  ((db.messages.filter (fun m => m.conversation_id == cid && cursorPredMsg cursor m)).reverse).take
    (limit + 1)

/-- The conversation's messages in the descending `created_at` order the
query fetches them in (reverse of the ascending store). -/
def convMessagesDesc (db : ChatDb) (cid : String) : List Message :=
  (db.messages.filter (fun m => m.conversation_id == cid)).reverse

/-- Method `ChatService.getMessages`: paginate and return the page reversed
(ascending order for display). -/
def ChatService.getMessages (db : ChatDb) (cid : String) (cursor : Option CursorKey)
    (limit : Nat) : GenPage Message :=
  let fetched := fetchedMessages db cid cursor limit
  ⟨(pageItems fetched limit).reverse,
   pageCursor fetched limit (fun m => ⟨m.created_at, toString m.id⟩)⟩

/-- Repeatedly following `nextCursor`, concatenating the returned pages
(the client-side iteration the pagination scheme is meant to support). -/
def collectPages (db : ChatDb) (cid : String) (limit : Nat) :
    Nat → Option CursorKey → List Message
  | 0, _ => []
  | fuel + 1, cursor =>
    let p := ChatService.getMessages db cid cursor limit
    p.data ++ (match p.nextCursor with
      | none => []
      | some c => collectPages db cid limit fuel (some c))

/-- Rows fetched by `listConversations`: membership rows of the profile,
cursor filter `lt('joined_at', ts)`, ordered by `joined_at` descending,
`limit(limit + 1)`.  (Each row is then enriched 1-1 with conversation data,
which changes neither count nor order.) -/
def fetchedConversations (db : ChatDb) (pid : String) (cursor : Option CursorKey)
    (limit : Nat) : List MemberRow :=
  ((db.members.filter (fun r => r.profile_id == pid &&
      (match cursor with
       | none => true
       | some c => decide (r.joined_at < c.timestamp)))).reverse).take (limit + 1)

/-- Method `ChatService.listConversations` pagination bookkeeping. -/
def ChatService.listConversations (db : ChatDb) (pid : String)
    (cursor : Option CursorKey) (limit : Nat) : GenPage MemberRow :=
  let fetched := fetchedConversations db pid cursor limit
  ⟨pageItems fetched limit,
   pageCursor fetched limit (fun r => ⟨r.joined_at, r.conversation_id⟩)⟩

/-- A row of the `schedules` table (fields the list endpoint touches). -/
structure Schedule where
  id : String
  project_id : String
  date : Nat
deriving DecidableEq

/-- Rows fetched by `listSchedules` (default branch): optional project
filter, cursor filter `gt('date', ts)`, ordered by `date` ascending,
`limit(limit + 1)`. -/
def fetchedSchedules (schedules : List Schedule) (projectId : Option String)
    (cursor : Option CursorKey) (limit : Nat) : List Schedule :=
  (schedules.filter (fun s =>
    (match projectId with
     | none => true
     | some p => s.project_id == p) &&
    (match cursor with
     | none => true
     | some c => decide (c.timestamp < s.date)))).take (limit + 1)

/-- Method `SchedulesService.listSchedules`, default branch (the profile-member
branch performs the same `limit + 1` / `slice(0, limit)` / `data[limit - 1]`
bookkeeping). -/
def SchedulesService.listSchedules (schedules : List Schedule)
    (projectId : Option String) (cursor : Option CursorKey) (limit : Nat) :
    GenPage Schedule :=
  let fetched := fetchedSchedules schedules projectId cursor limit
  ⟨pageItems fetched limit, pageCursor fetched limit (fun s => ⟨s.date, s.id⟩)⟩

/-! ### OTP service (src/src/auth/services/otp.service.ts) -/

/-- A row of the `otp_verifications` table. -/
structure OtpRecord where
  id : Nat
  phone : String
  otp : String
  created_at : Nat
  expires_at : Nat
  verified_at : Option Nat
deriving DecidableEq

/-- The OTP table with its serial primary key. -/
structure OtpDb where
  records : List OtpRecord
  nextId : Nat
deriving DecidableEq

/-- Query `order('created_at', desc).limit(1).maybeSingle()`: a row with maximal
`created_at` among the matches. -/
def pickLatest : List OtpRecord → Option OtpRecord
  | [] => none
  | r :: rest =>
    match pickLatest rest with
    | none => some r
    | some s => if r.created_at < s.created_at then some s else some r

/-- Expiry `getOTPExpirationIST` is 10 minutes ahead of now (milliseconds). -/
def otpExpiryMs : Nat := 10 * 60 * 1000

/-- Method `OtpService.storeOTP`: first expire every unverified OTP row of the phone
(set `expires_at` to now), then insert the fresh row expiring in 10 minutes. -/
def OtpService.storeOTP (db : OtpDb) (phone otp : String) (now : Nat) : OtpDb :=
  ⟨db.records.map (fun r =>
      if r.phone == phone && r.verified_at == none then {r with expires_at := now} else r)
    ++ [⟨db.nextId, phone, otp, now, now + otpExpiryMs, none⟩],
   db.nextId + 1⟩

/-- Method `OtpService.verifyOTP`: match the latest unverified, unexpired row for
the pair and mark it verified; report failure otherwise. -/
def OtpService.verifyOTP (db : OtpDb) (phone otp : String) (now : Nat) : OtpDb × Bool :=
  match pickLatest (db.records.filter (fun r =>
      r.phone == phone && r.otp == otp && r.verified_at == none &&
        decide (now < r.expires_at))) with
  | none => (db, false)
  | some r =>
    (⟨db.records.map (fun x =>
        if x.id = r.id then {x with verified_at := some now} else x), db.nextId⟩, true)

/-- Method `OtpService.verifyOrConfirmOTP`: match the latest unexpired row for the
pair regardless of `verified_at`; mark it verified only when it was not. -/
def OtpService.verifyOrConfirmOTP (db : OtpDb) (phone otp : String) (now : Nat) :
    OtpDb × Bool :=
  match pickLatest (db.records.filter (fun r =>
      r.phone == phone && r.otp == otp && decide (now < r.expires_at))) with
  | none => (db, false)
  | some r =>
    match r.verified_at with
    | none =>
      (⟨db.records.map (fun x =>
          if x.id = r.id then {x with verified_at := some now} else x), db.nextId⟩, true)
    | some _ => (db, true)

/-- Number of unverified, unexpired OTP rows of a phone. -/
def activeCount (db : OtpDb) (phone : String) (now : Nat) : Nat :=
  (db.records.filter (fun r =>
    r.phone == phone && r.verified_at == none && decide (now < r.expires_at))).length

/-- A `storeOTP` call: phone, code and the time it runs. -/
structure StoreCall where
  phone : String
  otp : String
  time : Nat
deriving DecidableEq

/-- Run a sequence of `storeOTP` calls. -/
def runStoreCalls (db : OtpDb) (calls : List StoreCall) : OtpDb :=
  calls.foldl (fun d c => OtpService.storeOTP d c.phone c.otp c.time) db

/-- The empty OTP table. -/
def emptyOtpDb : OtpDb := ⟨[], 1⟩

/-- A call to one of the two OTP verification operations. -/
inductive AuthOp where
  | verify (phone otp : String) (now : Nat)
  | confirm (phone otp : String) (now : Nat)
deriving DecidableEq

/-- Run one verification call (keeping only the database). -/
def applyAuthOp (db : OtpDb) : AuthOp → OtpDb
  | .verify p o t => (OtpService.verifyOTP db p o t).1
  | .confirm p o t => (OtpService.verifyOrConfirmOTP db p o t).1

/-- Run a sequence of verification calls. -/
def applyAuthOps (db : OtpDb) (ops : List AuthOp) : OtpDb :=
  ops.foldl applyAuthOp db

/-- Unverified rows for a (phone, otp) pair. -/
def pairUnverified (phone otp : String) (r : OtpRecord) : Bool :=
  r.phone == phone && r.otp == otp && r.verified_at == none

/-! ### Concrete fixtures for counterexamples and witnesses -/

/-- A conversation membership row for the fixtures. -/
def exMember : MemberRow := ⟨"c1", "p1", 0⟩

/-- Fixture database: `p1` is a member of `c1`, no messages yet. -/
def exDb : ChatDb := ⟨[], [exMember], [], 1⟩

/-- Fixture gateway state over `exDb`. -/
def exSt : GwState := ⟨exDb, []⟩

/-- Fixture socket authenticated as profile `p1`. -/
def exSock : Socket := ⟨1, some ⟨"u1", "p1"⟩⟩

/-- The message stored by the first `send_message` emission in the fixture. -/
def exMsg : Message := ⟨1, "c1", "p1", "hello", none, some "m1", true, 5, []⟩

/-- Gateway state after the first emission. -/
def exSt1 : GwState := ⟨⟨[exMsg], [exMember], [], 2⟩, []⟩

/-- Three stored messages, two sharing `created_at = 10`. -/
def pm1 : Message := ⟨1, "c", "p", "a", none, none, true, 10, []⟩

/-- Second message with the tied timestamp. -/
def pm2 : Message := ⟨2, "c", "p", "b", none, none, true, 10, []⟩

/-- An older message. -/
def pm3 : Message := ⟨3, "c", "p", "d", none, none, true, 5, []⟩

/-- Database with a `created_at` tie inside conversation `c`. -/
def pagDb : ChatDb := ⟨[pm3, pm1, pm2], [], [], 4⟩

/-- Messages with pairwise distinct timestamps. -/
def wm1 : Message := ⟨1, "c", "p", "a", none, none, true, 5, []⟩

/-- Second distinct-timestamp message. -/
def wm2 : Message := ⟨2, "c", "p", "b", none, none, true, 7, []⟩

/-- Third distinct-timestamp message. -/
def wm3 : Message := ⟨3, "c", "p", "d", none, none, true, 9, []⟩

/-- Database with pairwise distinct `created_at` values. -/
def wDb : ChatDb := ⟨[wm1, wm2, wm3], [], [], 4⟩

/-- An unverified OTP row for the fixtures. -/
def otpRec : OtpRecord := ⟨1, "9876543210", "123456", 0, 600000, none⟩

/-- OTP table holding the single fixture row. -/
def otpDbEx : OtpDb := ⟨[otpRec], 2⟩

end Krafts

namespace Krafts

/-! #### Base64 round-trip lemmas (theorems start here) -/

/-- Chunks-of-three induction on byte lists, matching `b64encode`. -/
theorem chunk3Induction (P : List Nat → Prop) (h0 : P []) (h1 : ∀ a, P [a])
    (h2 : ∀ a b, P [a, b])
    (h3 : ∀ a b c rest, P rest → P (a :: b :: c :: rest)) :
    ∀ l, P l
  | [] => h0
  | [a] => h1 a
  | [a, b] => h2 a b
  | a :: b :: c :: rest => h3 a b c rest (chunk3Induction P h0 h1 h2 h3 rest)

theorem sextetInv_sextet : ∀ n < 64, sextetInv (sextet n) = some n := by decide

theorem sextet_ne_61 : ∀ n < 64, sextet n ≠ 61 := by decide

theorem b64decode_b64encode (l : List Nat) (h : ∀ x ∈ l, x < 256) :
    b64decode (b64encode l) = some l := by
  induction l using chunk3Induction with
  | h0 => simp [b64encode, b64decode]
  | h1 a =>
    have ha : a < 256 := h a (by simp)
    have e0 : a / 4 < 64 := by omega
    have e1 : a % 4 * 16 < 64 := by omega
    simp only [b64encode, b64decode]
    rw [if_pos (by simp), sextetInv_sextet _ e0, sextetInv_sextet _ e1]
    simp only [Option.some.injEq, List.cons.injEq, and_true]
    omega
  | h2 a b =>
    have ha : a < 256 := h a (by simp)
    have hb : b < 256 := h b (by simp)
    have e0 : a / 4 < 64 := by omega
    have e1 : a % 4 * 16 + b / 16 < 64 := by omega
    have e2 : b % 16 * 4 < 64 := by omega
    simp only [b64encode, b64decode]
    rw [if_neg (by intro hcon; exact sextet_ne_61 _ e2 hcon.1),
      if_pos (by simp), sextetInv_sextet _ e0, sextetInv_sextet _ e1,
      sextetInv_sextet _ e2]
    simp only [Option.some.injEq, List.cons.injEq, and_true]
    omega
  | h3 a b c rest ih =>
    have ha : a < 256 := h a (by simp)
    have hb : b < 256 := h b (by simp)
    have hc : c < 256 := h c (by simp)
    have e0 : a / 4 < 64 := by omega
    have e1 : a % 4 * 16 + b / 16 < 64 := by omega
    have e2 : b % 16 * 4 + c / 64 < 64 := by omega
    have e3 : c % 64 < 64 := by omega
    have htail : b64decode (b64encode rest) = some rest :=
      ih (fun x hx => h x (by simp [hx]))
    simp only [b64encode, b64decode]
    rw [if_neg (by intro hcon; exact sextet_ne_61 _ e2 hcon.1),
      if_neg (by intro hcon; exact sextet_ne_61 _ e3 hcon.1),
      sextetInv_sextet _ e0, sextetInv_sextet _ e1, sextetInv_sextet _ e2,
      sextetInv_sextet _ e3, htail]
    simp only [Option.some.injEq, List.cons.injEq, and_true]
    omega

theorem splitOnByte_not_mem (sep : Nat) (l : List Nat) (h : sep ∉ l) :
    splitOnByte sep l = [l] := by
  induction l with
  | nil => rfl
  | cons x xs ih =>
    have hx : x ≠ sep := fun hc => h (hc ▸ List.mem_cons_self x xs)
    have hxs : sep ∉ xs := fun hc => h (List.mem_cons_of_mem _ hc)
    rw [splitOnByte, ih hxs]
    simp [hx]

theorem splitOnByte_append (sep : Nat) (ts rest : List Nat) (h : sep ∉ ts) :
    splitOnByte sep (ts ++ sep :: rest) = ts :: splitOnByte sep rest := by
  induction ts with
  | nil =>
    show splitOnByte sep (sep :: rest) = [] :: splitOnByte sep rest
    rw [splitOnByte]
    cases hsp : splitOnByte sep rest with
    | nil =>
      exfalso
      induction rest with
      | nil => simp [splitOnByte] at hsp
      | cons y ys ihy =>
        rw [splitOnByte] at hsp
        cases h2 : splitOnByte sep ys with
        | nil => exact ihy h2
        | cons p ps => rw [h2] at hsp; by_cases hy : y = sep <;> simp [hy] at hsp
    | cons p ps => simp
  | cons x xs ih =>
    have hx : x ≠ sep := fun hc => h (hc ▸ List.mem_cons_self x xs)
    have hxs : sep ∉ xs := fun hc => h (List.mem_cons_of_mem _ hc)
    show splitOnByte sep (x :: (xs ++ sep :: rest)) = (x :: xs) :: splitOnByte sep rest
    rw [splitOnByte, ih hxs]
    simp [hx]


/-! #### C5: cursor token round-trip -/

/-- C5 (amended): cursor tokens round-trip — for every non-empty timestamp
and non-empty id, neither containing the separator byte `|` (124), decoding
the encoded token returns exactly `{ timestamp, id }`; the token is the
base64 encoding of `timestamp|id`.  (The claim as stated omits the
restriction on the id; see the counterexample.) -/
theorem cursor_roundtrip (ts ident : List Nat)
    (hts256 : ∀ x ∈ ts, x < 256) (hid256 : ∀ x ∈ ident, x < 256)
    (hts : ts ≠ []) (hid : ident ≠ [])
    (htsp : 124 ∉ ts) (hidp : 124 ∉ ident) :
    decodeCursor (encodeCursor ts ident) = some ⟨ts, ident⟩ := by
  have hbytes : ∀ x ∈ ts ++ 124 :: ident, x < 256 := by
    intro x hx
    rcases List.mem_append.mp hx with h1 | h1
    · exact hts256 x h1
    · rcases List.mem_cons.mp h1 with h2 | h2
      · omega
      · exact hid256 x h2
  unfold decodeCursor encodeCursor
  rw [b64decode_b64encode _ hbytes]
  simp only
  rw [splitOnByte_append _ _ _ htsp, splitOnByte_not_mem _ _ hidp]
  simp [hts, hid]

/-- C5 counterexample: the claim as stated only excludes `|` from the
timestamp.  With timestamp `t` and id `a|b` (both non-empty, timestamp free
of `|`) the decoded id is truncated at the separator: the round trip yields
`{t, a}`, not `{t, a|b}`. -/
theorem cursor_roundtrip_pipe_id_cex :
    decodeCursor (encodeCursor [116] [97, 124, 98]) = some ⟨[116], [97]⟩ ∧
    decodeCursor (encodeCursor [116] [97, 124, 98]) ≠ some ⟨[116], [97, 124, 98]⟩ := by
  decide

/-- C5 witness: the amended round trip at timestamp `20`, id `7`. -/
theorem cursor_roundtrip_witness :
    decodeCursor (encodeCursor [50, 48] [55]) = some ⟨[50, 48], [55]⟩ :=
  cursor_roundtrip [50, 48] [55] (by decide) (by decide) (by decide) (by decide)
    (by decide) (by decide)

/-! #### C1: idempotent delivery via client message ids -/

/-- C1 counterexample: in the fixture, the first `send_message` emission with
`clientMsgId` `m1` succeeds and acks; emitting the same payload again makes
the insert hit the `client_msg_id` unique constraint, so `sendMessage` throws
and the handler propagates the error instead of emitting a second
`message_ack` — the repeated delivery does turn into an error. -/
theorem send_message_retry_errors_cex :
    ChatGateway.onSendMessage exSt exSock "c1" "m1" "hello" none 5 =
      .ok (exSt1, [.message 1 "c1" "p1" "hello" 5, .messageAck "m1" 1 5]) ∧
    ChatGateway.onSendMessage exSt1 exSock "c1" "m1" "hello" none 6 =
      .error .dbError :=
  ⟨rfl, rfl⟩

/-- C1 (amended): for an authenticated member and a fresh `clientMsgId`, the
first emission stores the message and acks it; the repeated emission leaves
exactly one stored message carrying that `client_msg_id` but its insert is
rejected by the unique constraint, so it ends in a thrown error and produces
no second `message_ack`. -/
theorem send_message_retry_amended (st : GwState) (sock : Socket) (u : AuthUser)
    (cid cmid content : String) (md : Option String) (t1 t2 : Nat)
    (hu : sock.user = some u)
    (hm : isMember st.db cid u.profileId = true)
    (hcid : cid ≠ "") (hcmid : cmid ≠ "") (hcontent : content ≠ "")
    (hfresh : hasClientMsgId st.db cmid = false) :
    ChatGateway.onSendMessage st sock cid cmid content md t1 =
      .ok ({st with db :=
              dbAfterInsert st.db (sentMessage st.db cid u.profileId content md (some cmid) t1)},
        [.message st.db.nextMessageId cid u.profileId content t1,
         .messageAck cmid st.db.nextMessageId t1]) ∧
    ((dbAfterInsert st.db
        (sentMessage st.db cid u.profileId content md (some cmid) t1)).messages.filter
          (fun m => m.client_msg_id == some cmid)).length = 1 ∧
    ChatGateway.onSendMessage
      {st with db :=
        dbAfterInsert st.db (sentMessage st.db cid u.profileId content md (some cmid) t1)}
      sock cid cmid content md t2 = .error .dbError := by
  have hfresh2 : ∀ m ∈ st.db.messages, ¬(m.client_msg_id == some cmid) = true := by
    simpa [hasClientMsgId, List.any_eq_false] using hfresh
  refine ⟨?_, ?_, ?_⟩
  · simp [ChatGateway.onSendMessage, hu, hcid, hcmid, hcontent,
      ChatService.sendMessage, hm, clientMsgIdTaken, hfresh, sentMessage]
  · rw [dbAfterInsert]
    simp only [List.filter_append, List.length_append]
    rw [List.filter_eq_nil_iff.mpr hfresh2]
    simp [sentMessage]
  · have htaken : hasClientMsgId
        (dbAfterInsert st.db (sentMessage st.db cid u.profileId content md (some cmid) t1))
        cmid = true := by
      simp [hasClientMsgId, dbAfterInsert, sentMessage, List.any_append]
    have hm2 : isMember
        (dbAfterInsert st.db (sentMessage st.db cid u.profileId content md (some cmid) t1))
        cid u.profileId = true := by
      simpa [isMember, dbAfterInsert] using hm
    simp [ChatGateway.onSendMessage, hu, hcid, hcmid, hcontent,
      ChatService.sendMessage, hm2, clientMsgIdTaken, htaken]

/-- C1 witness: the amended theorem in the fixture. -/
theorem send_message_retry_amended_witness :
    ChatGateway.onSendMessage exSt exSock "c1" "m1" "hello" none 5 =
      .ok ({exSt with db :=
              dbAfterInsert exSt.db (sentMessage exSt.db "c1" "p1" "hello" none (some "m1") 5)},
        [.message exSt.db.nextMessageId "c1" "p1" "hello" 5,
         .messageAck "m1" exSt.db.nextMessageId 5]) ∧
    ((dbAfterInsert exSt.db
        (sentMessage exSt.db "c1" "p1" "hello" none (some "m1") 5)).messages.filter
          (fun m => m.client_msg_id == some "m1")).length = 1 ∧
    ChatGateway.onSendMessage
      {exSt with db :=
        dbAfterInsert exSt.db (sentMessage exSt.db "c1" "p1" "hello" none (some "m1") 5)}
      exSock "c1" "m1" "hello" none 6 = .error .dbError :=
  send_message_retry_amended exSt exSock ⟨"u1", "p1"⟩ "c1" "m1" "hello" none 5 6 rfl
    (by decide) (by decide) (by decide) (by decide) (by decide)

/-! #### C2: membership checks guard chat operations -/

/-- C2: for an authenticated socket and non-empty conversation id,
`join_conversation` adds the socket to `room:conversationId` exactly when a
membership row exists and otherwise emits `forbidden` and changes nothing;
and `sendMessage` throws `ForbiddenException` (inserting nothing) when the
sender has no membership row. -/
theorem chat_membership_guard (st : GwState) (sock : Socket) (u : AuthUser) (cid : String)
    (hu : sock.user = some u) (hcid : cid ≠ "") :
    (isMember st.db cid u.profileId = true →
      ChatGateway.onJoinConversation st sock cid =
        ({st with rooms := (sock.sid, roomName cid) :: st.rooms}, [])) ∧
    (isMember st.db cid u.profileId = false →
      ChatGateway.onJoinConversation st sock cid = (st, [.errorEvt "forbidden"])) ∧
    (∀ senderId content md cmid now, isMember st.db cid senderId = false →
      ChatService.sendMessage st.db cid senderId content md cmid now = .error .forbidden) := by
  refine ⟨fun hm => ?_, fun hm => ?_, fun senderId content md cmid now hm => ?_⟩
  · simp [ChatGateway.onJoinConversation, hu, hcid, hm]
  · simp [ChatGateway.onJoinConversation, hu, hcid, hm]
  · simp [ChatService.sendMessage, hm]

/-- C2 witness: joining succeeds for the member fixture. -/
theorem chat_membership_guard_witness :
    ChatGateway.onJoinConversation exSt exSock "c1" =
      ({exSt with rooms := (exSock.sid, roomName "c1") :: exSt.rooms}, []) :=
  (chat_membership_guard exSt exSock ⟨"u1", "p1"⟩ "c1" rfl (by decide)).1 (by decide)

/-! #### C7: typing/presence updates are keyed upserts -/

theorem keyMatches_self (row : PresenceRow) :
    keyMatches row.conversation_id row.profile_id row = true := by
  simp [keyMatches]

theorem filter_map_replace (rows : List PresenceRow) (row : PresenceRow) (c p : String) :
    ((rows.map (fun r => if keyMatches row.conversation_id row.profile_id r then row else r)).filter
        (keyMatches c p)) =
      ((rows.filter (keyMatches c p)).map
        (fun r => if keyMatches row.conversation_id row.profile_id r then row else r)) := by
  induction rows with
  | nil => rfl
  | cons r rs ih =>
    by_cases hk : keyMatches row.conversation_id row.profile_id r = true
    · have hsame : keyMatches c p r = keyMatches c p row := by
        simp only [keyMatches] at hk ⊢
        rcases Bool.and_eq_true_iff.mp hk with ⟨h1, h2⟩
        rw [beq_iff_eq] at h1 h2
        rw [h1, h2]
      by_cases hc : keyMatches c p r = true
      · simp [hk, hc, ← hsame, ih]
      · simp [hk, hc, ← hsame, ih]
    · by_cases hc : keyMatches c p r = true
      · simp [hk, hc, ih]
      · simp [hk, hc, ih]

theorem upsertPresence_filter_self (rows : List PresenceRow) (row : PresenceRow)
    (h : (rows.filter (keyMatches row.conversation_id row.profile_id)).length ≤ 1) :
    (upsertPresence rows row).filter (keyMatches row.conversation_id row.profile_id) = [row] := by
  unfold upsertPresence
  by_cases hany : rows.any (keyMatches row.conversation_id row.profile_id) = true
  · rw [if_pos hany, filter_map_replace]
    rcases List.any_eq_true.mp hany with ⟨x, hx, hkx⟩
    have hne : rows.filter (keyMatches row.conversation_id row.profile_id) ≠ [] := by
      intro hnil
      have := List.filter_eq_nil_iff.mp hnil x hx
      exact this hkx
    have hlen : (rows.filter (keyMatches row.conversation_id row.profile_id)).length = 1 := by
      have := List.length_pos.mpr hne
      omega
    rcases List.length_eq_one.mp hlen with ⟨a, ha⟩
    have hka : keyMatches row.conversation_id row.profile_id a = true := by
      have : a ∈ rows.filter (keyMatches row.conversation_id row.profile_id) := by
        rw [ha]; exact List.mem_singleton.mpr rfl
      exact List.of_mem_filter this
    rw [ha]
    simp [hka]
  · rw [if_neg hany, List.filter_append]
    have h1 : rows.filter (keyMatches row.conversation_id row.profile_id) = [] := by
      rw [List.filter_eq_nil_iff]
      intro a ha hka
      exact hany (List.any_eq_true.mpr ⟨a, ha, hka⟩)
    simp [h1, keyMatches_self]

theorem upsertPresence_filter_other (rows : List PresenceRow) (row : PresenceRow) (c p : String)
    (hne : keyMatches c p row = false) :
    (upsertPresence rows row).filter (keyMatches c p) = rows.filter (keyMatches c p) := by
  unfold upsertPresence
  by_cases hany : rows.any (keyMatches row.conversation_id row.profile_id) = true
  · rw [if_pos hany, filter_map_replace]
    have : ∀ r ∈ rows.filter (keyMatches c p),
        (if keyMatches row.conversation_id row.profile_id r then row else r) = r := by
      intro r hr
      by_cases hk : keyMatches row.conversation_id row.profile_id r = true
      · exfalso
        have hcp : keyMatches c p r = true := List.of_mem_filter hr
        have hsame : keyMatches c p row = keyMatches c p r := by
          simp only [keyMatches] at hk ⊢
          rcases Bool.and_eq_true_iff.mp hk with ⟨h1, h2⟩
          rw [beq_iff_eq] at h1 h2
          rw [h1, h2]
        rw [hsame, hcp] at hne
        simp at hne
      · simp [hk]
    rw [List.map_congr_left this, List.map_id']
  · rw [if_neg hany, List.filter_append]
    simp [hne]

theorem applyPresenceOp_presence (db : ChatDb) (op : PresenceOp) :
    (applyPresenceOp db op).presence = upsertPresence db.presence op.row := by
  cases op <;> rfl

theorem applyPresenceOp_members (db : ChatDb) (op : PresenceOp) :
    (applyPresenceOp db op).messages = db.messages := by
  cases op <;> rfl

theorem presence_fold_filter (ops : List PresenceOp) (db : ChatDb) (cid pid : String)
    (h : ∀ c p, (db.presence.filter (keyMatches c p)).length ≤ 1) :
    ((ops.foldl applyPresenceOp db).presence.filter (keyMatches cid pid)) =
      (match lastOpFor cid pid ops with
       | some op => [op.row]
       | none => db.presence.filter (keyMatches cid pid)) := by
  induction ops generalizing db with
  | nil => simp [lastOpFor]
  | cons op rest ih =>
    have hrowkey : op.row.conversation_id = op.key.1 ∧ op.row.profile_id = op.key.2 := by
      cases op <;> exact ⟨rfl, rfl⟩
    have hnew : ∀ c p, (((applyPresenceOp db op).presence.filter (keyMatches c p)).length ≤ 1) := by
      intro c p
      rw [applyPresenceOp_presence]
      by_cases hk : keyMatches c p op.row = true
      · have hc : c = op.row.conversation_id ∧ p = op.row.profile_id := by
          simp only [keyMatches] at hk
          rcases Bool.and_eq_true_iff.mp hk with ⟨h1, h2⟩
          rw [beq_iff_eq] at h1 h2
          exact ⟨h1.symm, h2.symm⟩
        rcases hc with ⟨hc1, hc2⟩
        subst hc1; subst hc2
        rw [upsertPresence_filter_self db.presence op.row (h _ _)]
        simp
      · rw [upsertPresence_filter_other db.presence op.row c p (Bool.eq_false_iff.mpr hk)]
        exact h c p
    have hfold := ih (applyPresenceOp db op) hnew
    rw [List.foldl_cons, hfold]
    rw [lastOpFor]
    cases hlast : lastOpFor cid pid rest with
    | some o => simp
    | none =>
      simp only
      rw [applyPresenceOp_presence]
      by_cases hkey : op.key = (cid, pid)
      · rw [if_pos hkey]
        have h1 : cid = op.row.conversation_id := by rw [hrowkey.1, hkey]
        have h2 : pid = op.row.profile_id := by rw [hrowkey.2, hkey]
        subst h1; subst h2
        exact upsertPresence_filter_self db.presence op.row (h _ _)
      · rw [if_neg hkey]
        have hk : keyMatches cid pid op.row = false := by
          rw [Bool.eq_false_iff]
          intro hcon
          apply hkey
          simp only [keyMatches] at hcon
          rcases Bool.and_eq_true_iff.mp hcon with ⟨h1, h2⟩
          rw [beq_iff_eq] at h1 h2
          have := hrowkey.1
          have := hrowkey.2
          cases op with
          | typing a b x y =>
            simp only [PresenceOp.key]
            simp only [PresenceOp.row] at h1 h2
            rw [h1, h2]
          | presence a b y =>
            simp only [PresenceOp.key]
            simp only [PresenceOp.row] at h1 h2
            rw [h1, h2]
        exact upsertPresence_filter_other db.presence op.row cid pid hk

/-- C7: typing and presence updates are upserts keyed on
`(conversation_id, profile_id)`: after any sequence of `updateTyping` and
`updatePresence` calls (starting from an empty presence table) there is at
most one presence row per conversation/profile pair, and that row is exactly
the row written by the latest call for that pair. -/
theorem presence_upsert_latest (ops : List PresenceOp) (db : ChatDb)
    (hdb : db.presence = []) (cid pid : String) :
    ((ops.foldl applyPresenceOp db).presence.filter (keyMatches cid pid)).length ≤ 1 ∧
    (∀ op, lastOpFor cid pid ops = some op →
      (ops.foldl applyPresenceOp db).presence.filter (keyMatches cid pid) = [op.row]) := by
  have h0 : ∀ c p, (db.presence.filter (keyMatches c p)).length ≤ 1 := by
    intro c p; rw [hdb]; simp
  have hmain := presence_fold_filter ops db cid pid h0
  constructor
  · rw [hmain]
    cases hlast : lastOpFor cid pid ops with
    | some o => simp
    | none => rw [hdb]; simp
  · intro op hop
    rw [hmain, hop]

/-- C7 witness: a typing call followed by a presence call for the same pair
leaves exactly the row of the latest call. -/
theorem presence_upsert_latest_witness :
    (([PresenceOp.typing "c" "p" true 1, PresenceOp.presence "c" "p" 2].foldl
        applyPresenceOp exDb).presence.filter (keyMatches "c" "p")) =
      [⟨"c", "p", false, 2⟩] :=
  (presence_upsert_latest [PresenceOp.typing "c" "p" true 1, PresenceOp.presence "c" "p" 2]
    exDb rfl "c" "p").2 (PresenceOp.presence "c" "p" 2) rfl

/-! #### C9: at most one active OTP per phone -/

theorem storeOTP_filter_nil (db : OtpDb) (phone : String) (tc t : Nat) (h : tc ≤ t) :
    ((db.records.map (fun r =>
        if r.phone == phone && r.verified_at == none then {r with expires_at := tc} else r)).filter
      (fun r => r.phone == phone && r.verified_at == none && decide (t < r.expires_at))) = [] := by
  rw [List.filter_eq_nil_iff]
  intro a ha hpa
  rcases List.mem_map.mp ha with ⟨x, hx, hfx⟩
  rcases Bool.and_eq_true_iff.mp hpa with ⟨hk2, hexp⟩
  by_cases hk : (x.phone == phone && x.verified_at == none) = true
  · rw [if_pos hk] at hfx
    rw [← hfx] at hexp
    simp at hexp
    omega
  · rw [if_neg hk] at hfx
    rw [← hfx] at hk2
    exact hk hk2

theorem storeOTP_activeCount_self (db : OtpDb) (phone otp : String) (tc t : Nat)
    (h : tc ≤ t) :
    activeCount (OtpService.storeOTP db phone otp tc) phone t ≤ 1 := by
  unfold activeCount OtpService.storeOTP
  simp only
  rw [List.filter_append, storeOTP_filter_nil db phone tc t h]
  simp only [List.nil_append]
  exact (List.length_filter_le _ _).trans (by simp)

theorem filter_map_invariant {A : Type} (l : List A) (f : A → A) (p : A → Bool)
    (h : ∀ x ∈ l, p (f x) = p x ∧ (p x = true → f x = x)) :
    (l.map f).filter p = l.filter p := by
  induction l with
  | nil => rfl
  | cons x xs ih =>
    have hx := h x (List.mem_cons_self x xs)
    have hxs : ∀ y ∈ xs, p (f y) = p y ∧ (p y = true → f y = y) :=
      fun y hy => h y (List.mem_cons_of_mem _ hy)
    simp only [List.map_cons, List.filter_cons, hx.1]
    cases hp : p x with
    | false => simp [ih hxs]
    | true => rw [hx.2 hp]; simp [ih hxs]

theorem filter_other_phone (l : List OtpRecord) (phone ph2 : String) (tc t : Nat)
    (hne : ph2 ≠ phone) :
    ((l.map (fun r => if r.phone == phone && r.verified_at == none
        then {r with expires_at := tc} else r)).filter
      (fun r => r.phone == ph2 && r.verified_at == none && decide (t < r.expires_at))) =
    l.filter (fun r => r.phone == ph2 && r.verified_at == none && decide (t < r.expires_at)) := by
  apply filter_map_invariant
  intro x hx
  constructor
  · by_cases hk : (x.phone == phone && x.verified_at == none) = true
    · have hxph : x.phone = phone := beq_iff_eq.mp (Bool.and_eq_true_iff.mp hk).1
      have hb : (x.phone == ph2) = false := by
        rw [hxph]
        exact beq_eq_false_iff_ne.mpr (Ne.symm hne)
      rw [if_pos hk]
      simp [hb]
    · rw [if_neg hk]
  · intro hp
    by_cases hk : (x.phone == phone && x.verified_at == none) = true
    · exfalso
      have hxph : x.phone = phone := beq_iff_eq.mp (Bool.and_eq_true_iff.mp hk).1
      have hp2 : (x.phone == ph2) = true :=
        (Bool.and_eq_true_iff.mp (Bool.and_eq_true_iff.mp hp).1).1
      exact hne ((beq_iff_eq.mp hp2) ▸ hxph ▸ rfl)
    · rw [if_neg hk]

theorem storeOTP_activeCount_other (db : OtpDb) (phone otp ph2 : String) (tc t : Nat)
    (hne : ph2 ≠ phone) :
    activeCount (OtpService.storeOTP db phone otp tc) ph2 t = activeCount db ph2 t := by
  unfold activeCount OtpService.storeOTP
  simp only
  rw [List.filter_append, filter_other_phone db.records phone ph2 tc t hne]
  have hnew : ([(⟨db.nextId, phone, otp, tc, tc + otpExpiryMs, none⟩ : OtpRecord)].filter
      (fun r => r.phone == ph2 && r.verified_at == none && decide (t < r.expires_at))) = [] := by
    simp [beq_eq_false_iff_ne.mpr (Ne.symm hne)]
  rw [hnew, List.append_nil]

theorem runStoreCalls_active (calls : List StoreCall) (t : Nat) (db : OtpDb)
    (h : ∀ c ∈ calls, c.time ≤ t)
    (hdb : ∀ ph, activeCount db ph t ≤ 1) :
    ∀ ph, activeCount (runStoreCalls db calls) ph t ≤ 1 := by
  induction calls generalizing db with
  | nil => exact hdb
  | cons c rest ih =>
    intro ph
    unfold runStoreCalls
    rw [List.foldl_cons]
    refine ih (OtpService.storeOTP db c.phone c.otp c.time)
      (fun x hx => h x (List.mem_cons_of_mem _ hx)) ?_ ph
    intro p
    by_cases hp : p = c.phone
    · subst hp
      exact storeOTP_activeCount_self db c.phone c.otp c.time t (h c (List.mem_cons_self _ _))
    · rw [storeOTP_activeCount_other db c.phone c.otp p c.time t hp]
      exact hdb p

/-- C9: `storeOTP` first sets `expires_at` to the call time on every
unverified OTP row of the phone and only then inserts the new row expiring
10 minutes later, so after any sequence of `storeOTP` calls, at any time `t`
at or after every call, each phone has at most one OTP row that is both
unverified and unexpired. -/
theorem store_otp_single_active (calls : List StoreCall) (t : Nat)
    (h : ∀ c ∈ calls, c.time ≤ t) (phone : String) :
    activeCount (runStoreCalls emptyOtpDb calls) phone t ≤ 1 :=
  runStoreCalls_active calls t emptyOtpDb h
    (fun ph => by simp [activeCount, emptyOtpDb]) phone

/-- C9 witness: two stores for the same phone leave at most one active row. -/
theorem store_otp_single_active_witness :
    activeCount (runStoreCalls emptyOtpDb
      [⟨"9876543210", "111111", 10⟩, ⟨"9876543210", "222222", 20⟩]) "9876543210" 20 ≤ 1 :=
  store_otp_single_active [⟨"9876543210", "111111", 10⟩, ⟨"9876543210", "222222", 20⟩] 20
    (by decide) "9876543210"

/-! #### C8: an OTP is one-time (for verifyOTP; not for verifyOrConfirmOTP) -/

theorem pickLatest_mem (l : List OtpRecord) (r : OtpRecord) (h : pickLatest l = some r) :
    r ∈ l := by
  induction l with
  | nil => simp [pickLatest] at h
  | cons x xs ih =>
    rw [pickLatest] at h
    cases hm : pickLatest xs with
    | none =>
      simp only [hm, Option.some.injEq] at h
      rw [← h]
      exact List.mem_cons_self _ _
    | some s =>
      simp only [hm] at h
      by_cases hlt : x.created_at < s.created_at
      · rw [if_pos hlt] at h
        simp only [Option.some.injEq] at h
        rw [h] at hm
        exact List.mem_cons_of_mem _ (ih hm)
      · rw [if_neg hlt] at h
        simp only [Option.some.injEq] at h
        rw [← h]
        exact List.mem_cons_self _ _

theorem verifyOTP_clears_pair (db : OtpDb) (phone otp : String) (t1 : Nat)
    (hcount : (db.records.filter (pairUnverified phone otp)).length ≤ 1)
    (hok : (OtpService.verifyOTP db phone otp t1).2 = true) :
    ∀ x ∈ (OtpService.verifyOTP db phone otp t1).1.records,
      pairUnverified phone otp x = false := by
  rcases hm : pickLatest (db.records.filter (fun r =>
      r.phone == phone && r.otp == otp && r.verified_at == none &&
        decide (t1 < r.expires_at))) with _ | r
  · unfold OtpService.verifyOTP at hok
    rw [hm] at hok
    simp at hok
  · have hrmem : r ∈ db.records.filter (fun r =>
        r.phone == phone && r.otp == otp && r.verified_at == none &&
          decide (t1 < r.expires_at)) := pickLatest_mem _ _ hm
    have hrin : r ∈ db.records := List.mem_of_mem_filter hrmem
    have hrpair : pairUnverified phone otp r = true := by
      have hfull := List.of_mem_filter hrmem
      have := (Bool.and_eq_true_iff.mp hfull).1
      simpa [pairUnverified] using this
    intro x hx
    unfold OtpService.verifyOTP at hx
    rw [hm] at hx
    simp only at hx
    rcases List.mem_map.mp hx with ⟨y, hy, hfy⟩
    by_cases hid : y.id = r.id
    · rw [if_pos hid] at hfy
      rw [← hfy]
      simp [pairUnverified]
    · rw [if_neg hid] at hfy
      rw [← hfy]
      cases hyp : pairUnverified phone otp y with
      | false => rfl
      | true =>
        exfalso
        have hyf : y ∈ db.records.filter (pairUnverified phone otp) :=
          List.mem_filter.mpr ⟨hy, hyp⟩
        have hrf : r ∈ db.records.filter (pairUnverified phone otp) :=
          List.mem_filter.mpr ⟨hrin, hrpair⟩
        have hner : y ≠ r := fun hc => hid (by rw [hc])
        rcases hfl : db.records.filter (pairUnverified phone otp) with _ | ⟨a, tail⟩
        · rw [hfl] at hyf
          simp at hyf
        · rw [hfl] at hyf hrf hcount
          have htail : tail = [] := by
            simp only [List.length_cons] at hcount
            exact List.length_eq_zero.mp (by omega)
          rw [htail] at hyf hrf
          have h1 : y = a := by simpa using hyf
          have h2 : r = a := by simpa using hrf
          exact hner (h1.trans h2.symm)

theorem verifyOTP_no_unverified (db : OtpDb) (phone otp : String) (t : Nat)
    (h : ∀ r ∈ db.records, pairUnverified phone otp r = false) :
    OtpService.verifyOTP db phone otp t = (db, false) := by
  unfold OtpService.verifyOTP
  have hnil : db.records.filter (fun r =>
      r.phone == phone && r.otp == otp && r.verified_at == none &&
        decide (t < r.expires_at)) = [] := by
    rw [List.filter_eq_nil_iff]
    intro a ha hpa
    have h1 := (Bool.and_eq_true_iff.mp hpa).1
    have h2 := h a ha
    rw [pairUnverified] at h2
    rw [h2] at h1
    exact Bool.false_ne_true h1
  rw [hnil]
  rfl

theorem applyAuthOp_preserves_none (db : OtpDb) (op : AuthOp) (phone otp : String)
    (h : ∀ r ∈ db.records, pairUnverified phone otp r = false) :
    ∀ r ∈ (applyAuthOp db op).records, pairUnverified phone otp r = false := by
  have key : ∀ (l : List OtpRecord) (rid t2 : Nat),
      (∀ r ∈ l, pairUnverified phone otp r = false) →
      ∀ r ∈ l.map (fun x => if x.id = rid then {x with verified_at := some t2} else x),
        pairUnverified phone otp r = false := by
    intro l rid t2 hl r hr
    rcases List.mem_map.mp hr with ⟨y, hy, hfy⟩
    by_cases hid : y.id = rid
    · rw [if_pos hid] at hfy
      rw [← hfy]
      simp [pairUnverified]
    · rw [if_neg hid] at hfy
      rw [← hfy]
      exact hl y hy
  cases op with
  | verify p o t =>
    show ∀ r ∈ (OtpService.verifyOTP db p o t).1.records, _
    rcases hm : pickLatest (db.records.filter (fun r =>
        r.phone == p && r.otp == o && r.verified_at == none &&
          decide (t < r.expires_at))) with _ | s
    · unfold OtpService.verifyOTP
      simp only [hm]
      exact h
    · unfold OtpService.verifyOTP
      simp only [hm]
      exact key db.records s.id t h
  | confirm p o t =>
    show ∀ r ∈ (OtpService.verifyOrConfirmOTP db p o t).1.records, _
    rcases hm : pickLatest (db.records.filter (fun r =>
        r.phone == p && r.otp == o && decide (t < r.expires_at))) with _ | s
    · unfold OtpService.verifyOrConfirmOTP
      simp only [hm]
      exact h
    · unfold OtpService.verifyOrConfirmOTP
      simp only [hm]
      cases hv : s.verified_at with
      | none => simp only [hv]; exact key db.records s.id t h
      | some tv => simp only [hv]; exact h

theorem applyAuthOps_preserves_none (db : OtpDb) (ops : List AuthOp) (phone otp : String)
    (h : ∀ r ∈ db.records, pairUnverified phone otp r = false) :
    ∀ r ∈ (applyAuthOps db ops).records, pairUnverified phone otp r = false := by
  induction ops generalizing db with
  | nil => exact h
  | cons op rest ih =>
    unfold applyAuthOps
    rw [List.foldl_cons]
    exact ih (applyAuthOp db op) (applyAuthOp_preserves_none db op phone otp h)

/-- C8 (amended): once `verifyOTP` has successfully verified a (phone, otp)
pair (and the pair had at most one unverified row, as `storeOTP` maintains),
no later `verifyOTP` call accepts that pair again, whatever sequence of
`verifyOTP`/`verifyOrConfirmOTP` calls runs in between: the matched row is
marked verified and only rows with null `verified_at` match.
`verifyOrConfirmOTP`, by design, does accept the already-verified pair while
it is unexpired (see the counterexample). -/
theorem verify_otp_one_time (db : OtpDb) (phone otp : String) (t1 : Nat)
    (hcount : (db.records.filter (pairUnverified phone otp)).length ≤ 1)
    (hok : (OtpService.verifyOTP db phone otp t1).2 = true) :
    ∀ (ops : List AuthOp) (t2 : Nat),
      OtpService.verifyOTP
          (applyAuthOps (OtpService.verifyOTP db phone otp t1).1 ops) phone otp t2 =
        (applyAuthOps (OtpService.verifyOTP db phone otp t1).1 ops, false) := by
  intro ops t2
  exact verifyOTP_no_unverified _ phone otp t2
    (applyAuthOps_preserves_none _ ops phone otp
      (verifyOTP_clears_pair db phone otp t1 hcount hok))

/-- C8 counterexample: the claim quantifies over both verification
operations, but after `verifyOTP` accepts and marks the fixture pair at time
5, `verifyOrConfirmOTP` accepts the very same (phone, otp) pair again at
time 10 (within the validity window). -/
theorem otp_reaccepted_by_confirm_cex :
    (OtpService.verifyOTP otpDbEx "9876543210" "123456" 5).2 = true ∧
    (OtpService.verifyOrConfirmOTP
        (OtpService.verifyOTP otpDbEx "9876543210" "123456" 5).1
        "9876543210" "123456" 10).2 = true :=
  ⟨rfl, rfl⟩

/-- C8 witness: after the fixture verification and an interleaved confirm
call, `verifyOTP` rejects the pair. -/
theorem verify_otp_one_time_witness :
    OtpService.verifyOTP
        (applyAuthOps (OtpService.verifyOTP otpDbEx "9876543210" "123456" 5).1
          [AuthOp.confirm "9876543210" "123456" 10]) "9876543210" "123456" 20 =
      (applyAuthOps (OtpService.verifyOTP otpDbEx "9876543210" "123456" 5).1
          [AuthOp.confirm "9876543210" "123456" 10], false) :=
  verify_otp_one_time otpDbEx "9876543210" "123456" 5 (by decide) rfl
    [AuthOp.confirm "9876543210" "123456" 10] 20

/-! #### C10: getMessages pages are returned oldest-first -/

/-- C10: although `getMessages` fetches rows in descending `created_at`
order, the returned data array is the reverse of the fetched page, so every
returned page is sorted oldest-to-newest. -/
theorem get_messages_ascending (db : ChatDb) (cid : String) (cursor : Option CursorKey)
    (limit : Nat)
    (hsorted : db.messages.Pairwise (fun a b => a.created_at ≤ b.created_at)) :
    (ChatService.getMessages db cid cursor limit).data.Pairwise
      (fun a b => a.created_at ≤ b.created_at) := by
  have h1 : (fetchedMessages db cid cursor limit).Pairwise
      (fun a b => b.created_at ≤ a.created_at) := by
    unfold fetchedMessages
    refine List.Pairwise.sublist (List.take_sublist _ _) ?_
    rw [List.pairwise_reverse]
    exact hsorted.filter _
  have h2 : (pageItems (fetchedMessages db cid cursor limit) limit).Pairwise
      (fun a b => b.created_at ≤ a.created_at) := by
    unfold pageItems
    split
    · exact List.Pairwise.sublist (List.take_sublist _ _) h1
    · exact h1
  show ((pageItems (fetchedMessages db cid cursor limit) limit).reverse).Pairwise _
  rw [List.pairwise_reverse]
  exact h2

/-- C10 witness: the fixture page comes back ascending. -/
theorem get_messages_ascending_witness :
    (ChatService.getMessages wDb "c" none 2).data.Pairwise
      (fun a b => a.created_at ≤ b.created_at) :=
  get_messages_ascending wDb "c" none 2 (by decide)

/-! #### C6: cursor-pagination bookkeeping -/

theorem page_bookkeeping {A : Type} (l : List A) (limit : Nat) (f : A → CursorKey) :
    (pageItems l limit).length ≤ limit ∧
    (pageCursor l limit f ≠ none ↔ limit < l.length) ∧
    (∀ h : limit < l.length, pageCursor l limit f =
      some (f (l.get ⟨limit - 1, by omega⟩))) := by
  refine ⟨?_, ?_, ?_⟩
  · unfold pageItems
    split
    · simp only [List.length_take]
      omega
    · omega
  · unfold pageCursor
    by_cases h : limit < l.length
    · rw [if_pos h]
      have h1 : limit - 1 < l.length := by omega
      rw [List.getElem?_eq_getElem h1]
      simp [h]
    · rw [if_neg h]
      simp [h]
  · intro h
    unfold pageCursor
    rw [if_pos h]
    have h1 : limit - 1 < l.length := by omega
    rw [List.getElem?_eq_getElem h1]
    simp

/-- C6: each paginated list operation (`getMessages`, `listConversations`,
`listSchedules`) fetches `limit + 1` rows (that many when available), returns
at most `limit` items, and returns a non-null `nextCursor` exactly when more
than `limit` rows were fetched, in which case the cursor encodes the
sort-key timestamp and id of the last item of the returned page in fetch
order (`data[limit - 1]`; `getMessages` then reverses the page for display).
The same holds for the shared helper `createPaginatedResponse`. -/
theorem pagination_bookkeeping (db : ChatDb) (schedules : List Schedule)
    (cid pid : String) (projectId : Option String) (cursor : Option CursorKey)
    (limit : Nat) :
    ((fetchedMessages db cid cursor limit).length =
      min (limit + 1) ((db.messages.filter (fun m => m.conversation_id == cid &&
        cursorPredMsg cursor m)).length) ∧
     (ChatService.getMessages db cid cursor limit).data.length ≤ limit ∧
     ((ChatService.getMessages db cid cursor limit).nextCursor ≠ none ↔
        limit < (fetchedMessages db cid cursor limit).length) ∧
     (∀ h : limit < (fetchedMessages db cid cursor limit).length,
        (ChatService.getMessages db cid cursor limit).nextCursor =
          some ⟨((fetchedMessages db cid cursor limit).get ⟨limit - 1, by omega⟩).created_at,
            toString (((fetchedMessages db cid cursor limit).get ⟨limit - 1, by omega⟩).id)⟩)) ∧
    ((ChatService.listConversations db pid cursor limit).data.length ≤ limit ∧
     ((ChatService.listConversations db pid cursor limit).nextCursor ≠ none ↔
        limit < (fetchedConversations db pid cursor limit).length) ∧
     (∀ h : limit < (fetchedConversations db pid cursor limit).length,
        (ChatService.listConversations db pid cursor limit).nextCursor =
          some ⟨((fetchedConversations db pid cursor limit).get ⟨limit - 1, by omega⟩).joined_at,
            ((fetchedConversations db pid cursor limit).get ⟨limit - 1, by omega⟩).conversation_id⟩)) ∧
    ((SchedulesService.listSchedules schedules projectId cursor limit).data.length ≤ limit ∧
     ((SchedulesService.listSchedules schedules projectId cursor limit).nextCursor ≠ none ↔
        limit < (fetchedSchedules schedules projectId cursor limit).length) ∧
     (∀ h : limit < (fetchedSchedules schedules projectId cursor limit).length,
        (SchedulesService.listSchedules schedules projectId cursor limit).nextCursor =
          some ⟨((fetchedSchedules schedules projectId cursor limit).get ⟨limit - 1, by omega⟩).date,
            ((fetchedSchedules schedules projectId cursor limit).get ⟨limit - 1, by omega⟩).id⟩)) ∧
    (∀ (data : List Schedule) (g : Schedule → CursorKey),
      (createPaginatedResponse data limit g).data.length ≤ limit ∧
      ((createPaginatedResponse data limit g).nextCursor ≠ none ↔ limit < data.length) ∧
      (∀ h : limit < data.length, (createPaginatedResponse data limit g).nextCursor =
        some (g (data.get ⟨limit - 1, by omega⟩)))) := by
  refine ⟨⟨?_, ?_, ?_, ?_⟩, ⟨?_, ?_, ?_⟩, ⟨?_, ?_, ?_⟩, ?_⟩
  · unfold fetchedMessages
    rw [List.length_take, List.length_reverse]
  · show ((pageItems (fetchedMessages db cid cursor limit) limit).reverse).length ≤ limit
    rw [List.length_reverse]
    exact (page_bookkeeping (fetchedMessages db cid cursor limit) limit (fun (m : Message) => ⟨m.created_at, toString m.id⟩)).1
  · exact (page_bookkeeping (fetchedMessages db cid cursor limit) limit (fun (m : Message) => ⟨m.created_at, toString m.id⟩)).2.1
  · exact (page_bookkeeping (fetchedMessages db cid cursor limit) limit (fun (m : Message) => ⟨m.created_at, toString m.id⟩)).2.2
  · exact (page_bookkeeping (fetchedConversations db pid cursor limit) limit (fun (r : MemberRow) => ⟨r.joined_at, r.conversation_id⟩)).1
  · exact (page_bookkeeping (fetchedConversations db pid cursor limit) limit (fun (r : MemberRow) => ⟨r.joined_at, r.conversation_id⟩)).2.1
  · exact (page_bookkeeping (fetchedConversations db pid cursor limit) limit (fun (r : MemberRow) => ⟨r.joined_at, r.conversation_id⟩)).2.2
  · exact (page_bookkeeping (fetchedSchedules schedules projectId cursor limit) limit (fun (s : Schedule) => ⟨s.date, s.id⟩)).1
  · exact (page_bookkeeping (fetchedSchedules schedules projectId cursor limit) limit (fun (s : Schedule) => ⟨s.date, s.id⟩)).2.1
  · exact (page_bookkeeping (fetchedSchedules schedules projectId cursor limit) limit (fun (s : Schedule) => ⟨s.date, s.id⟩)).2.2
  · intro data g
    exact page_bookkeeping data limit g

/-- C6 witness: with three stored messages and limit 1, `getMessages`
returns a cursor for the boundary row. -/
theorem pagination_bookkeeping_witness :
    (ChatService.getMessages wDb "c" none 1).nextCursor =
      some ⟨((fetchedMessages wDb "c" none 1).get ⟨0, by decide⟩).created_at,
        toString (((fetchedMessages wDb "c" none 1).get ⟨0, by decide⟩).id)⟩ :=
  (pagination_bookkeeping wDb [] "c" "p" none none 1).1.2.2.2 (by decide)

/-! #### C3: the mark_read fallback -/

theorem readView_nil (pid : String) (x : Message) : readView pid [] x = x := rfl

theorem readView_cons_skip (pid : String) (m : Message) (rest : List Message) (x : Message)
    (hm : m.read_by.contains pid = true) :
    readView pid (m :: rest) x = readView pid rest x := by
  unfold readView
  rw [List.find?_cons_of_neg _ (by rw [hm]; simp)]

theorem readView_cons_update (pid : String) (m : Message) (rest : List Message) (x : Message)
    (hm : m.read_by.contains pid = false)
    (hmid : m.id ∉ rest.map (fun m2 => m2.id)) :
    readView pid rest (if x.id = m.id then {x with read_by := m.read_by ++ [pid]} else x) =
      readView pid (m :: rest) x := by
  by_cases hx : x.id = m.id
  · rw [if_pos hx]
    unfold readView
    rw [List.find?_cons_of_pos _ (by rw [hm, hx]; simp)]
    have hnone : rest.find? (fun m2 =>
        m2.id == ({x with read_by := m.read_by ++ [pid]} : Message).id &&
          !(m2.read_by.contains pid)) = none := by
      rw [List.find?_eq_none]
      intro a ha hpa
      have h1 : a.id = x.id := by
        have := (Bool.and_eq_true_iff.mp hpa).1
        simpa using this
      exact hmid ((h1.trans hx) ▸ List.mem_map_of_mem (fun m2 => m2.id) ha)
    rw [hnone]
  · rw [if_neg hx]
    unfold readView
    rw [List.find?_cons_of_neg _ (by
      intro hcon
      rcases Bool.and_eq_true_iff.mp hcon with ⟨h1, _⟩
      exact hx (beq_iff_eq.mp h1).symm)]

theorem markLoop_spec (pid : String) (todo : List Message) (db : ChatDb) (evs : List GwEvent)
    (hnd : (todo.map (fun m => m.id)).Nodup) :
    markLoop pid (db, evs) todo =
      ({db with messages := db.messages.map (readView pid todo)},
       evs ++ (todo.filter (fun m => !(m.read_by.contains pid))).map
         (fun m => GwEvent.receiptUpdate m.id)) := by
  induction todo generalizing db evs with
  | nil =>
    show (db, evs) = _
    rw [List.map_congr_left (fun x _ => readView_nil pid x), List.map_id']
    simp
  | cons m rest ih =>
    have hndrest : (rest.map (fun m2 => m2.id)).Nodup := (List.nodup_cons.mp hnd).2
    have hmid : m.id ∉ rest.map (fun m2 => m2.id) := (List.nodup_cons.mp hnd).1
    cases hm : m.read_by.contains pid with
    | true =>
      rw [markLoop, if_pos hm, ih db evs hndrest]
      have e1 : db.messages.map (readView pid rest) =
          db.messages.map (readView pid (m :: rest)) :=
        List.map_congr_left (fun x _ => (readView_cons_skip pid m rest x hm).symm)
      have e2 : ((m :: rest).filter (fun m2 => !(m2.read_by.contains pid))) =
          (rest.filter (fun m2 => !(m2.read_by.contains pid))) := by
        rw [List.filter_cons, hm]
        simp
      rw [e1, e2]
    | false =>
      rw [markLoop, if_neg (by rw [hm]; simp),
        ih (applyReadUpdate pid db m) (evs ++ [GwEvent.receiptUpdate m.id]) hndrest]
      have emap : ((applyReadUpdate pid db m).messages.map (readView pid rest)) =
          db.messages.map (readView pid (m :: rest)) := by
        unfold applyReadUpdate
        rw [List.map_map]
        exact List.map_congr_left (fun x _ => readView_cons_update pid m rest x hm hmid)
      have eflt : ((m :: rest).filter (fun m2 => !(m2.read_by.contains pid))) =
          m :: (rest.filter (fun m2 => !(m2.read_by.contains pid))) := by
        rw [List.filter_cons, hm]
        simp
      rw [eflt]
      refine Prod.ext ?_ ?_
      · show ({applyReadUpdate pid db m with
          messages := (applyReadUpdate pid db m).messages.map (readView pid rest)} : ChatDb) =
            {db with messages := db.messages.map (readView pid (m :: rest))}
        rw [emap]
        rfl
      · show (evs ++ [GwEvent.receiptUpdate m.id]) ++ _ = _
        simp

theorem markLoop_all_read (pid : String) (todo : List Message) (acc : ChatDb × List GwEvent)
    (h : ∀ m ∈ todo, m.read_by.contains pid = true) :
    markLoop pid acc todo = acc := by
  induction todo generalizing acc with
  | nil =>
    rcases acc with ⟨db, evs⟩
    rfl
  | cons m rest ih =>
    rcases acc with ⟨db, evs⟩
    rw [markLoop, if_pos (h m (List.mem_cons_self _ _))]
    exact ih _ (fun x hx => h x (List.mem_cons_of_mem _ hx))

theorem readView_id_eq (pid : String) (todo : List Message) (x : Message) :
    (readView pid todo x).id = x.id := by
  unfold readView
  cases todo.find? (fun m => m.id == x.id && !(m.read_by.contains pid)) <;> rfl

theorem readView_conv_eq (pid : String) (todo : List Message) (x : Message) :
    (readView pid todo x).conversation_id = x.conversation_id := by
  unfold readView
  cases todo.find? (fun m => m.id == x.id && !(m.read_by.contains pid)) <;> rfl

theorem readView_pid_mem (pid : String) (todo : List Message) (x : Message)
    (hx : x ∈ todo ∨ x.read_by.contains pid = true) :
    pid ∈ (readView pid todo x).read_by := by
  unfold readView
  cases hf : todo.find? (fun m => m.id == x.id && !(m.read_by.contains pid)) with
  | some m => simp
  | none =>
    rcases hx with hx | hx
    · by_cases hc : x.read_by.contains pid = true
      · simpa using hc
      · exfalso
        have hc2 : pid ∉ x.read_by := by simpa using hc
        refine List.find?_eq_none.mp hf x hx ?_
        simp [hc2]
    · simpa using hx

theorem readView_not_todo (pid : String) (todo : List Message) (x : Message)
    (hnone : ∀ m ∈ todo, m.id ≠ x.id) :
    readView pid todo x = x := by
  unfold readView
  rw [List.find?_eq_none.mpr (fun m hm => by simp [hnone m hm])]

theorem readView_read_by (pid : String) (todo : List Message) (x : Message)
    (heq : ∀ m ∈ todo, m.id = x.id → m = x) :
    (readView pid todo x).read_by = x.read_by ∨
      (readView pid todo x).read_by = x.read_by ++ [pid] := by
  unfold readView
  cases hf : todo.find? (fun m => m.id == x.id && !(m.read_by.contains pid)) with
  | none => left; rfl
  | some m =>
    right
    have hm := List.find?_some hf
    have hmem := List.mem_of_find?_eq_some hf
    have hid : m.id = x.id := by
      have := (Bool.and_eq_true_iff.mp hm).1
      simpa using this
    show m.read_by ++ [pid] = x.read_by ++ [pid]
    rw [heq m hmem hid]

/-- C3: when the `mark_messages_read_up_to` RPC errors, the fallback updates
every message of the conversation with id up to `lastMessageId` so that the
reader appears in its `read_by` list, appending only when absent (a repeated
`mark_read` changes nothing and emits nothing), emits a `receipt_update` for
exactly the messages it changes, and leaves messages beyond `lastMessageId`
and the `read_by` entries of other profiles unchanged.  (Message ids are the
table's primary key, hence pairwise distinct.) -/
theorem mark_read_fallback_correct (db : ChatDb) (cid pid : String) (lastId : Nat)
    (hnd : (db.messages.map (fun m => m.id)).Nodup) :
    (∀ m2 ∈ (ChatGateway.onMarkReadFallback db cid pid lastId).1.messages,
      m2.conversation_id = cid → m2.id ≤ lastId → pid ∈ m2.read_by) ∧
    ChatGateway.onMarkReadFallback (ChatGateway.onMarkReadFallback db cid pid lastId).1
        cid pid lastId = ((ChatGateway.onMarkReadFallback db cid pid lastId).1, []) ∧
    (ChatGateway.onMarkReadFallback db cid pid lastId).2 =
      ((db.messages.filter (toUpdatePred cid lastId)).filter
        (fun m => !(m.read_by.contains pid))).map (fun m => GwEvent.receiptUpdate m.id) ∧
    (ChatGateway.onMarkReadFallback db cid pid lastId).1.messages.length =
      db.messages.length ∧
    (∀ i (hi : i < db.messages.length)
        (hi2 : i < (ChatGateway.onMarkReadFallback db cid pid lastId).1.messages.length),
      (toUpdatePred cid lastId (db.messages.get ⟨i, hi⟩) = false →
        (ChatGateway.onMarkReadFallback db cid pid lastId).1.messages.get ⟨i, hi2⟩ =
          db.messages.get ⟨i, hi⟩) ∧
      (∀ q, q ≠ pid →
        (q ∈ ((ChatGateway.onMarkReadFallback db cid pid lastId).1.messages.get ⟨i, hi2⟩).read_by ↔
          q ∈ (db.messages.get ⟨i, hi⟩).read_by))) := by
  have hndtodo : ((db.messages.filter (toUpdatePred cid lastId)).map (fun m => m.id)).Nodup :=
    List.Nodup.sublist (List.Sublist.map _ (List.filter_sublist _)) hnd
  have hspec := markLoop_spec pid (db.messages.filter (toUpdatePred cid lastId)) db [] hndtodo
  have hfst : (ChatGateway.onMarkReadFallback db cid pid lastId).1.messages =
      db.messages.map (readView pid (db.messages.filter (toUpdatePred cid lastId))) := by
    unfold ChatGateway.onMarkReadFallback
    rw [hspec]
  have h1 : ∀ m2 ∈ (ChatGateway.onMarkReadFallback db cid pid lastId).1.messages,
      m2.conversation_id = cid → m2.id ≤ lastId → pid ∈ m2.read_by := by
    intro m2 hm2 hconv hle
    rw [hfst] at hm2
    rcases List.mem_map.mp hm2 with ⟨x, hxmem, hfx⟩
    rw [← hfx] at hconv hle ⊢
    rw [readView_conv_eq] at hconv
    rw [readView_id_eq] at hle
    refine readView_pid_mem pid _ x (Or.inl ?_)
    refine List.mem_filter.mpr ⟨hxmem, ?_⟩
    simp [toUpdatePred, hconv, hle]
  refine ⟨h1, ?_, ?_, ?_, ?_⟩
  · have hdef : ChatGateway.onMarkReadFallback
        (ChatGateway.onMarkReadFallback db cid pid lastId).1 cid pid lastId =
      markLoop pid ((ChatGateway.onMarkReadFallback db cid pid lastId).1, [])
        ((ChatGateway.onMarkReadFallback db cid pid lastId).1.messages.filter
          (toUpdatePred cid lastId)) := rfl
    rw [hdef]
    apply markLoop_all_read
    intro m hm
    rcases List.mem_filter.mp hm with ⟨hmem, hpred⟩
    have hp2 : m.conversation_id = cid ∧ m.id ≤ lastId := by
      simpa [toUpdatePred] using hpred
    have hp := h1 m hmem hp2.1 hp2.2
    simpa using hp
  · unfold ChatGateway.onMarkReadFallback
    rw [hspec]
    simp
  · rw [hfst, List.length_map]
  · intro i hi hi2
    have hget : (ChatGateway.onMarkReadFallback db cid pid lastId).1.messages.get ⟨i, hi2⟩ =
        readView pid (db.messages.filter (toUpdatePred cid lastId))
          (db.messages.get ⟨i, hi⟩) := by
      have := hfst
      simp only [List.get_eq_getElem] at *
      rw [List.getElem_of_eq this hi2, List.getElem_map]
    constructor
    · intro hpred
      rw [hget]
      apply readView_not_todo
      intro m hm hcon
      rcases List.mem_filter.mp hm with ⟨hmmem, hmpred⟩
      have hmx : m = db.messages.get ⟨i, hi⟩ :=
        List.inj_on_of_nodup_map hnd hmmem (List.get_mem _ _ _) hcon
      rw [hmx] at hmpred
      rw [hmpred] at hpred
      exact Bool.noConfusion hpred
    · intro q hq
      have heq : ∀ m ∈ db.messages.filter (toUpdatePred cid lastId),
          m.id = (db.messages.get ⟨i, hi⟩).id → m = db.messages.get ⟨i, hi⟩ := by
        intro m hm hmid
        rcases List.mem_filter.mp hm with ⟨hmmem, _⟩
        exact List.inj_on_of_nodup_map hnd hmmem (List.get_mem _ _ _) hmid
      rcases readView_read_by pid _ (db.messages.get ⟨i, hi⟩) heq with he | he
      · rw [hget, he]
      · rw [hget, he]
        simp [hq]

/-- C3 witness: a concrete fallback run over the fixture database. -/
theorem mark_read_fallback_correct_witness :
    (ChatGateway.onMarkReadFallback pagDb "c" "p1" 2).2 =
      ((pagDb.messages.filter (toUpdatePred "c" 2)).filter
        (fun m => !(m.read_by.contains "p1"))).map (fun m => GwEvent.receiptUpdate m.id) :=
  (mark_read_fallback_correct pagDb "c" "p1" 2 (by decide)).2.2.1

/-! #### C4: following the cursor — the tie-breaking id is ignored -/

/-- C4 counterexample: `pagDb` stores `pm1` and `pm2` with the same
`created_at` in conversation `c`.  With limit 1 the first page returns `pm2`
and a cursor whose timestamp is their shared `created_at`; the next fetch
filters strictly below that timestamp, so `pm1` — equal timestamp, different
id — is never returned by the cursor iteration. -/
theorem pagination_skips_tied_timestamp_cex :
    pm1 ∈ pagDb.messages ∧ pm1.conversation_id = "c" ∧
    collectPages pagDb "c" 1 4 none = [pm2, pm3] ∧
    pm1 ∉ collectPages pagDb "c" 1 4 none := by
  decide

theorem filter_and_split {A : Type} (l : List A) (p q : A → Bool) :
    l.filter (fun a => p a && q a) = (l.filter p).filter q := by
  induction l with
  | nil => rfl
  | cons x xs ih =>
    cases hp : p x <;> cases hq : q x <;> simp [List.filter_cons, hp, hq, ih]

theorem filter_subsumed {A : Type} (l : List A) (p q : A → Bool)
    (h : ∀ a, q a = true → p a = true) :
    (l.filter p).filter q = l.filter q := by
  induction l with
  | nil => rfl
  | cons x xs ih =>
    cases hp : p x
    · have hq : q x = false := by
        cases hqx : q x
        · rfl
        · rw [h x hqx] at hp
          exact Bool.noConfusion hp
      simp [List.filter_cons, hp, hq, ih]
    · simp [List.filter_cons, hp, ih]

theorem filter_lt_get_descending (l : List Message) (i : Nat) (hi : i < l.length)
    (hd : l.Pairwise (fun a b => b.created_at < a.created_at)) :
    l.filter (fun m => decide (m.created_at < (l.get ⟨i, hi⟩).created_at)) =
      l.drop (i + 1) := by
  induction l generalizing i with
  | nil => simp at hi
  | cons x xs ih =>
    rcases List.pairwise_cons.mp hd with ⟨hx, hxs⟩
    cases i with
    | zero =>
      rw [List.filter_cons]
      have hself : decide (x.created_at < ((x :: xs).get ⟨0, hi⟩).created_at) = false := by
        simp
      rw [hself, if_neg (by simp)]
      have hall : xs.filter (fun m =>
          decide (m.created_at < ((x :: xs).get ⟨0, hi⟩).created_at)) = xs := by
        rw [List.filter_eq_self]
        intro a ha
        simpa using hx a ha
      rw [hall]
      rfl
    | succ j =>
      have hj : j < xs.length := by simpa using hi
      have hget : ((x :: xs).get ⟨j + 1, hi⟩) = xs.get ⟨j, hj⟩ := by simp
      rw [List.filter_cons, hget]
      have hxt : decide (x.created_at < (xs.get ⟨j, hj⟩).created_at) = false := by
        have h2 := hx _ (List.get_mem xs j hj)
        rw [decide_eq_false_iff_not]
        omega
      rw [hxt, if_neg (by simp), ih j hj hxs]
      rfl

theorem convMessagesDesc_pairwise (db : ChatDb) (cid : String)
    (hsorted : db.messages.Pairwise (fun a b => a.created_at < b.created_at)) :
    (convMessagesDesc db cid).Pairwise (fun a b => b.created_at < a.created_at) := by
  unfold convMessagesDesc
  rw [List.pairwise_reverse]
  exact hsorted.filter _

theorem fetched_eq_take (db : ChatDb) (cid : String) (cursor : Option CursorKey)
    (limit : Nat) :
    fetchedMessages db cid cursor limit =
      ((convMessagesDesc db cid).filter (cursorPredMsg cursor)).take (limit + 1) := by
  unfold fetchedMessages convMessagesDesc
  rw [filter_and_split, List.filter_reverse]

theorem collectPages_perm_aux (db : ChatDb) (cid : String) (limit : Nat) (hl : 1 ≤ limit)
    (hd : (convMessagesDesc db cid).Pairwise (fun a b => b.created_at < a.created_at)) :
    ∀ (fuel : Nat) (cursor : Option CursorKey),
      ((convMessagesDesc db cid).filter (cursorPredMsg cursor)).length ≤ fuel →
      (collectPages db cid limit fuel cursor).Perm
        ((convMessagesDesc db cid).filter (cursorPredMsg cursor)) := by
  intro fuel
  induction fuel with
  | zero =>
    intro cursor hfuel
    have hnil : (convMessagesDesc db cid).filter (cursorPredMsg cursor) = [] :=
      List.length_eq_zero.mp (Nat.le_zero.mp hfuel)
    rw [hnil]
    exact List.Perm.refl []
  | succ fuel ih =>
    intro cursor hfuel
    have ha := fetched_eq_take db cid cursor limit
    have hstep : collectPages db cid limit (fuel + 1) cursor =
        (ChatService.getMessages db cid cursor limit).data ++
          (match (ChatService.getMessages db cid cursor limit).nextCursor with
           | none => []
           | some c => collectPages db cid limit fuel (some c)) := rfl
    by_cases hcase :
        limit < ((convMessagesDesc db cid).filter (cursorPredMsg cursor)).length
    · -- more rows remain than fit in one page
      have hlen : (((convMessagesDesc db cid).filter (cursorPredMsg cursor)).take
          (limit + 1)).length = limit + 1 := by
        rw [List.length_take]
        omega
      have hfetchlt : limit < (fetchedMessages db cid cursor limit).length := by
        rw [ha, hlen]
        omega
      have hi2 : limit - 1 <
          ((convMessagesDesc db cid).filter (cursorPredMsg cursor)).length := by omega
      have hdata2 : (ChatService.getMessages db cid cursor limit).data =
          (((convMessagesDesc db cid).filter (cursorPredMsg cursor)).take limit).reverse := by
        show (pageItems (fetchedMessages db cid cursor limit) limit).reverse = _
        rw [ha]
        unfold pageItems
        rw [if_pos (by rw [hlen]; omega), List.take_take]
        have hmin : min limit (limit + 1) = limit := by omega
        rw [hmin]
      have hcur2 : (ChatService.getMessages db cid cursor limit).nextCursor =
          some ⟨(((convMessagesDesc db cid).filter (cursorPredMsg cursor)).get
              ⟨limit - 1, hi2⟩).created_at,
            toString ((((convMessagesDesc db cid).filter (cursorPredMsg cursor)).get
              ⟨limit - 1, hi2⟩).id)⟩ := by
        show pageCursor (fetchedMessages db cid cursor limit) limit
          (fun m => ⟨m.created_at, toString m.id⟩) = _
        rw [ha]
        unfold pageCursor
        rw [if_pos (by rw [hlen]; omega)]
        have hb : limit - 1 < (((convMessagesDesc db cid).filter
            (cursorPredMsg cursor)).take (limit + 1)).length := by
          rw [hlen]; omega
        rw [List.getElem?_eq_getElem hb]
        have hgt : (((convMessagesDesc db cid).filter (cursorPredMsg cursor)).take
            (limit + 1))[limit - 1] =
            ((convMessagesDesc db cid).filter (cursorPredMsg cursor))[limit - 1] := by
          rw [List.getElem_take]
        rw [hgt]
        rfl
      have hsub : ∀ a, cursorPredMsg (some ⟨(((convMessagesDesc db cid).filter
            (cursorPredMsg cursor)).get ⟨limit - 1, hi2⟩).created_at,
          toString ((((convMessagesDesc db cid).filter (cursorPredMsg cursor)).get
            ⟨limit - 1, hi2⟩).id)⟩) a = true →
          cursorPredMsg cursor a = true := by
        intro a hcp2
        cases cursor with
        | none => rfl
        | some c =>
          have hmem : ((convMessagesDesc db cid).filter (cursorPredMsg (some c))).get
              ⟨limit - 1, hi2⟩ ∈ (convMessagesDesc db cid).filter (cursorPredMsg (some c)) :=
            List.get_mem _ _ _
          have hold : cursorPredMsg (some c) (((convMessagesDesc db cid).filter
              (cursorPredMsg (some c))).get ⟨limit - 1, hi2⟩) = true :=
            List.of_mem_filter hmem
          simp only [cursorPredMsg, decide_eq_true_eq] at hold hcp2 ⊢
          omega
      have hc2 : (convMessagesDesc db cid).filter
          (cursorPredMsg (some ⟨(((convMessagesDesc db cid).filter
              (cursorPredMsg cursor)).get ⟨limit - 1, hi2⟩).created_at,
            toString ((((convMessagesDesc db cid).filter (cursorPredMsg cursor)).get
              ⟨limit - 1, hi2⟩).id)⟩)) =
          ((convMessagesDesc db cid).filter (cursorPredMsg cursor)).drop limit := by
        rw [← filter_subsumed (convMessagesDesc db cid) (cursorPredMsg cursor) _ hsub]
        have hdR : ((convMessagesDesc db cid).filter (cursorPredMsg cursor)).Pairwise
            (fun a b => b.created_at < a.created_at) := hd.filter _
        have hkey := filter_lt_get_descending
          ((convMessagesDesc db cid).filter (cursorPredMsg cursor)) (limit - 1) hi2 hdR
        have hsucc : limit - 1 + 1 = limit := by omega
        rw [hsucc] at hkey
        exact hkey
      have hfuel2 : ((convMessagesDesc db cid).filter
          (cursorPredMsg (some ⟨(((convMessagesDesc db cid).filter
              (cursorPredMsg cursor)).get ⟨limit - 1, hi2⟩).created_at,
            toString ((((convMessagesDesc db cid).filter (cursorPredMsg cursor)).get
              ⟨limit - 1, hi2⟩).id)⟩))).length ≤ fuel := by
        rw [hc2, List.length_drop]
        omega
      have hperm2 := ih _ hfuel2
      rw [hc2] at hperm2
      rw [hstep, hdata2, hcur2]
      have hfinal := List.Perm.append (List.reverse_perm
        (((convMessagesDesc db cid).filter (cursorPredMsg cursor)).take limit)) hperm2
      rw [List.take_append_drop] at hfinal
      exact hfinal
    · -- the whole remainder fits in this page
      have htake : ((convMessagesDesc db cid).filter (cursorPredMsg cursor)).take
          (limit + 1) = (convMessagesDesc db cid).filter (cursorPredMsg cursor) :=
        List.take_of_length_le (by omega)
      have hdata1 : (ChatService.getMessages db cid cursor limit).data =
          ((convMessagesDesc db cid).filter (cursorPredMsg cursor)).reverse := by
        show (pageItems (fetchedMessages db cid cursor limit) limit).reverse = _
        rw [ha, htake]
        unfold pageItems
        rw [if_neg hcase]
      have hcur1 : (ChatService.getMessages db cid cursor limit).nextCursor = none := by
        show pageCursor (fetchedMessages db cid cursor limit) limit
          (fun m => ⟨m.created_at, toString m.id⟩) = _
        rw [ha, htake]
        unfold pageCursor
        rw [if_neg hcase]
      rw [hstep, hdata1, hcur1]
      show (((convMessagesDesc db cid).filter (cursorPredMsg cursor)).reverse ++
        ([] : List Message)).Perm _
      rw [List.append_nil]
      exact List.reverse_perm _

/-- C4 (amended): the cursor filter compares only `created_at` (strictly) and
ignores the encoded id, so a message sharing the cursor's timestamp with a
different id is skipped (see the counterexample).  When the `created_at`
values of the stored messages are pairwise distinct, repeatedly following
`nextCursor` yields every message of the conversation exactly once. -/
theorem pagination_complete_distinct_timestamps (db : ChatDb) (cid : String)
    (limit fuel : Nat) (hl : 1 ≤ limit)
    (hsorted : db.messages.Pairwise (fun a b => a.created_at < b.created_at))
    (hfuel : db.messages.length ≤ fuel) :
    (collectPages db cid limit fuel none).Perm
      (db.messages.filter (fun m => m.conversation_id == cid)) := by
  have hd := convMessagesDesc_pairwise db cid hsorted
  have hfuel2 : ((convMessagesDesc db cid).filter (cursorPredMsg none)).length ≤ fuel := by
    refine le_trans (List.length_filter_le _ _) ?_
    unfold convMessagesDesc
    rw [List.length_reverse]
    exact le_trans (List.length_filter_le _ _) hfuel
  have hmain := collectPages_perm_aux db cid limit hl hd fuel none hfuel2
  have hnone : (convMessagesDesc db cid).filter (cursorPredMsg none) =
      convMessagesDesc db cid := by
    rw [List.filter_eq_self]
    intro a ha
    rfl
  rw [hnone] at hmain
  exact hmain.trans (by unfold convMessagesDesc; exact List.reverse_perm _)

/-- C4 witness: with pairwise distinct timestamps the iteration returns the
whole conversation exactly once. -/
theorem pagination_complete_distinct_timestamps_witness :
    (collectPages wDb "c" 1 3 none).Perm
      (wDb.messages.filter (fun m => m.conversation_id == "c")) :=
  pagination_complete_distinct_timestamps wDb "c" 1 3 (by decide) (by decide) (by decide)

end Krafts
